import Mathlib

/-!
Verification of the decentraland-server data-access layer.

We shallowly embed the SQL fragment builder (`Postgres` class), the Model
entity gateway (the class-factory variant and the class variant), and the
nested attribute helpers, and prove the specified properties about them.

JavaScript objects are modelled as ordered association lists
`List (String × Value)` (JS string-keyed objects preserve insertion order,
and property update keeps the original position while a new key appends).
-/

/-- A JavaScript runtime value as used by the library: `undefined`, `null`,
booleans, numbers, strings, `Date` instances (identified by their instant),
and plain objects (ordered key/value maps). -/
inductive Value where
  | vUndef : Value
  | vNull : Value
  | vBool : Bool → Value
  | vNum : Int → Value
  | vStr : String → Value
  | vDate : Nat → Value
  | vObj : List (String × Value) → Value

/-- JavaScript truthiness: `undefined`, `null`, `false`, `0` and `""` are
falsy; `Date`s and objects are always truthy. -/
def truthy : Value → Bool
  | Value.vUndef => false
  | Value.vNull => false
  | Value.vBool b => b
  | Value.vNum n => n != 0
  | Value.vStr s => s != ""
  | Value.vDate _ => true
  | Value.vObj _ => true

/-- JavaScript `a || b`. -/
def jsOr (a b : Value) : Value :=
  if truthy a then a else b

/-- JavaScript property read `o[k]` on a plain object: first matching key,
`undefined` when absent. -/
def objGet : List (String × Value) → String → Value
  | [], _ => Value.vUndef
  | (k, v) :: rest, key => if k = key then v else objGet rest key

/-- JavaScript property write `o[k] = v` on a plain object: an existing key
is updated in place (keeping its position), a new key is appended. -/
def objSet : List (String × Value) → String → Value → List (String × Value)
  | [], key, v => [(key, v)]
  | (k, w) :: rest, key, v =>
      if k = key then (key, v) :: rest else (k, w) :: objSet rest key v

/-- Property read `x[k]` on an arbitrary value: reads the field of an
object, yields `undefined` on any non-object. -/
def valueIndex : Value → String → Value
  | Value.vObj o, key => objGet o key
  | _, _ => Value.vUndef

/-- Property write `x[k] = v` on an arbitrary value: writes the field of an
object; on a non-object the write is lost (non-strict JS no-op). -/
def valueSetKey : Value → String → Value → Value
  | Value.vObj o, key, v => Value.vObj (objSet o key v)
  | other, _, _ => other

/-- Whether a value is a plain object. -/
def isObj : Value → Bool
  | Value.vObj _ => true
  | _ => false

namespace Postgres

/-- `Object.keys` on an ordered map: the keys in iteration order. -/
def objectKeys (o : List (String × Value)) : List String :=
  o.map Prod.fst

/-- `Object.values` on an ordered map: the values in iteration order. -/
def objectValues (o : List (String × Value)) : List Value :=
  o.map Prod.snd

/-- Double-quote a column identifier, as the builders do. -/
def quoteCol (name : String) : String :=
  "\"" ++ name ++ "\""

/-- How a JS array stringifies inside a template literal: `join(",")`. -/
def arrToString (l : List String) : String :=
  String.intercalate "," l

/-- `Postgres.toColumnFields`: each key of the mapping quoted, in order. -/
def toColumnFields (columns : List (String × Value)) : List String :=
  (objectKeys columns).map quoteCol

/-- `Postgres.toAssignmentFields(columns, start = 0)`: one
`"column" = $N` term per key of the mapping, in iteration order, with
`N = index + start + 1`. -/
def toAssignmentFields (columns : List (String × Value)) (start : Nat := 0) :
    List String :=
  (objectKeys columns).mapIdx
    (fun index column => quoteCol column ++ " = $" ++ toString (index + start + 1))

/-- `Postgres.toValuePlaceholders(columns, start = 0)`: one `$N` token per
key of the mapping, with `N = index + start + 1`. -/
def toValuePlaceholders (columns : List (String × Value)) (start : Nat := 0) :
    List String :=
  (objectKeys columns).mapIdx
    (fun index _ => "$" ++ toString (index + start + 1))

/-- `Postgres.getOrderValues`: one `"column" DIRECTION` string per key, the
direction taken verbatim from the value. -/
def getOrderValues (order : List (String × String)) : List String :=
  order.map (fun p => quoteCol p.1 ++ " " ++ p.2)

/-- The `OnConflict` argument: a target column list and an optional changes
mapping (`changes` may be absent, which is falsy in JS; a present empty
mapping is truthy). -/
structure OnConflictArg where
  target : List String
  changes : Option (List (String × Value))

/-- `Postgres.toOnConflictUpsert(onConflict, indexStart = 0)`:
`target.length > 0 && changes` selects the DO UPDATE clause, anything else
yields the literal do-nothing clause. -/
def toOnConflictUpsert (oc : OnConflictArg) (indexStart : Nat := 0) : String :=
  match oc.changes with
  | some changes =>
      if oc.target.length > 0 then
        "ON CONFLICT (" ++ arrToString oc.target ++ ") DO\n        UPDATE SET " ++
          arrToString (toAssignmentFields changes indexStart)
      else
        "ON CONFLICT DO NOTHING"
  | none => "ON CONFLICT DO NOTHING"

/-- The text/values pair handed to the underlying client. -/
structure QueryArgumentL where
  text : String
  values : List Value

/-- `Postgres.insert(tableName, changes, primaryKey = 'id', onConflict)`:
throws when `changes` is missing; otherwise builds the INSERT text (with
the conflict clause numbered from `values.length`) and the value array
`values.concat(conflictValues)`. -/
def insert (tableName : String) (changes : Option (List (String × Value)))
    (primaryKey : String := "id") (onConflict : Option OnConflictArg := none) :
    Except String QueryArgumentL :=
  let oc := onConflict.getD ⟨[], some []⟩
  match changes with
  | none =>
      Except.error ("Tried to perform an insert on " ++ tableName ++
        " without any values. Supply a changes object")
  | some chg =>
      let values := objectValues chg
      let conflictValues := objectValues (oc.changes.getD [])
      Except.ok
        ⟨"INSERT INTO " ++ tableName ++ "(\n        " ++
          arrToString (toColumnFields chg) ++ "\n      ) VALUES(\n        " ++
          arrToString (toValuePlaceholders chg) ++ "\n      )\n        " ++
          toOnConflictUpsert oc values.length ++ "\n        RETURNING " ++ primaryKey,
         values ++ conflictValues⟩

/-- `Postgres.update(tableName, changes, conditions)`: throws when either
mapping is missing; otherwise SET comes from `changes` (numbered from 1),
WHERE from `conditions` numbered from `changeValues.length + 1`, and the
value array is `changeValues.concat(conditionValues)`. -/
def update (tableName : String) (changes conditions : Option (List (String × Value))) :
    Except String QueryArgumentL :=
  match changes with
  | none =>
      Except.error ("Tried to update " ++ tableName ++
        " without any values. Supply a changes object")
  | some chg =>
      match conditions with
      | none =>
          Except.error ("Tried to update " ++ tableName ++
            " without a WHERE clause. Supply a conditions object")
      | some cond =>
          let changeValues := objectValues chg
          let conditionValues := objectValues cond
          let whereClauses := toAssignmentFields cond changeValues.length
          Except.ok
            ⟨"UPDATE " ++ tableName ++ "\n      SET   " ++
              arrToString (toAssignmentFields chg) ++ "\n      WHERE " ++
              String.intercalate " AND " whereClauses,
             changeValues ++ conditionValues⟩

/-- `Postgres.delete(tableName, conditions)`: throws when `conditions` is
missing, before building any query; otherwise builds the DELETE text and
the condition values. -/
def deleteFrom (tableName : String) (conditions : Option (List (String × Value))) :
    Except String QueryArgumentL :=
  match conditions with
  | none =>
      Except.error ("Tried to update " ++ tableName ++
        " without a WHERE clause. Supply a conditions object")
  | some cond =>
      Except.ok
        ⟨"DELETE FROM " ++ tableName ++ "\n      WHERE " ++
          String.intercalate " AND " (toAssignmentFields cond),
         objectValues cond⟩

end Postgres

section HelperLemmas

variable {α : Type _} {β : Type _}

theorem mapIdx_getElem? (f : Nat → α → β) (l : List α) (i : Nat) (h : i < l.length) :
    (List.mapIdx f l)[i]? = some (f i l[i]) := by
  have h2 : i < (List.mapIdx f l).length := by
    rw [List.length_mapIdx]; exact h
  rw [List.getElem?_eq_getElem h2]
  congr 1
  have hg := List.get_mapIdx l f i h h2
  exact hg

theorem objectKeys_getElem (columns : List (String × Value)) (i : Nat)
    (h : i < columns.length) (h2 : i < (Postgres.objectKeys columns).length) :
    (Postgres.objectKeys columns)[i] = columns[i].1 := by
  simp [Postgres.objectKeys]

end HelperLemmas

/-- C1: for every columns mapping and start index, `toAssignmentFields`
produces exactly one `"col" = $N` term per key of the mapping, in the
mapping's iteration order, with `N` equal to the key's positional index
plus the start index plus 1; the value array built from the same mapping
lists the values of the same keys in the same order; and
`toValuePlaceholders` obeys the same numbering rule. -/
theorem assignment_and_placeholder_numbering
    (columns : List (String × Value)) (start : Nat) :
    (Postgres.toAssignmentFields columns start).length = columns.length ∧
    (Postgres.toValuePlaceholders columns start).length = columns.length ∧
    (Postgres.objectValues columns).length = columns.length ∧
    ∀ i p, columns[i]? = some p →
      (Postgres.toAssignmentFields columns start)[i]? =
        some (Postgres.quoteCol p.1 ++ " = $" ++ toString (i + start + 1)) ∧
      (Postgres.toValuePlaceholders columns start)[i]? =
        some ("$" ++ toString (i + start + 1)) ∧
      (Postgres.objectValues columns)[i]? = some p.2 := by
  refine ⟨?_, ?_, ?_, ?_⟩
  · simp [Postgres.toAssignmentFields, Postgres.objectKeys, List.length_mapIdx]
  · simp [Postgres.toValuePlaceholders, Postgres.objectKeys, List.length_mapIdx]
  · simp [Postgres.objectValues]
  · intro i p hp
    obtain ⟨h, hget⟩ := List.getElem?_eq_some_iff.mp hp
    have hk : i < (Postgres.objectKeys columns).length := by
      simpa [Postgres.objectKeys] using h
    refine ⟨?_, ?_, ?_⟩
    · rw [Postgres.toAssignmentFields, mapIdx_getElem? _ _ i hk]
      rw [objectKeys_getElem columns i h hk, hget]
    · rw [Postgres.toValuePlaceholders, mapIdx_getElem? _ _ i hk]
    · rw [Postgres.objectValues, List.getElem?_map, hp]
      rfl

/-- Witness for C1 at a concrete mapping and start index 9: the second
column gets placeholder `$11` and the value array lists the second value
at the same position. -/
theorem assignment_and_placeholder_numbering_witness :
    (Postgres.toAssignmentFields
        [("name", Value.vStr "x"), ("email", Value.vStr "y")] 9)[1]? =
      some (Postgres.quoteCol "email" ++ " = $" ++ toString (1 + 9 + 1)) ∧
    (Postgres.toValuePlaceholders
        [("name", Value.vStr "x"), ("email", Value.vStr "y")] 9)[1]? =
      some ("$" ++ toString (1 + 9 + 1)) ∧
    (Postgres.objectValues
        [("name", Value.vStr "x"), ("email", Value.vStr "y")])[1]? =
      some (Value.vStr "y") :=
  (assignment_and_placeholder_numbering
      [("name", Value.vStr "x"), ("email", Value.vStr "y")] 9).2.2.2
    1 ("email", Value.vStr "y") rfl

/-- C2: for every changes mapping and conditions mapping passed to
`Postgres.update`, the executed value array is the concatenation of the
change values followed by the condition values, and the WHERE-clause
assignment placeholders start at the number of change values; with 2
change keys and 1 condition key the WHERE placeholder is `$3`. -/
theorem update_values_concat_and_where_offset
    (t : String) (changes conditions : List (String × Value)) :
    Postgres.update t (some changes) (some conditions) =
      Except.ok
        ⟨"UPDATE " ++ t ++ "\n      SET   " ++
          Postgres.arrToString (Postgres.toAssignmentFields changes) ++ "\n      WHERE " ++
          String.intercalate " AND "
            (Postgres.toAssignmentFields conditions (Postgres.objectValues changes).length),
         Postgres.objectValues changes ++ Postgres.objectValues conditions⟩ ∧
    (∀ k v c1 c2, conditions = [(k, v)] → changes = [c1, c2] →
      Postgres.toAssignmentFields conditions (Postgres.objectValues changes).length =
        [Postgres.quoteCol k ++ " = $" ++ toString 3]) := by
  constructor
  · rfl
  · intro k v c1 c2 hcond hchg
    subst hcond; subst hchg
    simp [Postgres.toAssignmentFields, Postgres.objectKeys, Postgres.objectValues,
      List.mapIdx_cons]

/-- Witness for C2 at a concrete table, 2 change keys and 1 condition key:
the WHERE placeholder is `$3` and the value array is the concatenation. -/
theorem update_values_concat_and_where_offset_witness :
    Postgres.toAssignmentFields [(("id" : String), Value.vNum 22)]
        (Postgres.objectValues
          [(("name" : String), Value.vStr "a"), ("email", Value.vStr "b")]).length =
      [Postgres.quoteCol "id" ++ " = $" ++ toString 3] :=
  (update_values_concat_and_where_offset "users"
      [("name", Value.vStr "a"), ("email", Value.vStr "b")]
      [("id", Value.vNum 22)]).2 "id" (Value.vNum 22)
    ("name", Value.vStr "a") ("email", Value.vStr "b") rfl rfl

/-- C3: `toOnConflictUpsert` emits the literal do-nothing clause when the
target is empty; with a non-empty target and changes present it emits an
on-conflict-do-update clause whose assignment placeholders start at the
given value count; `insert` passes the length of the main insert value
list as that count, and the resulting placeholders index correctly into
the concatenation of the insert values and the conflict change values. -/
theorem conflict_clause_numbering :
    (∀ (oc : Postgres.OnConflictArg) (count : Nat), oc.target = [] →
      Postgres.toOnConflictUpsert oc count = "ON CONFLICT DO NOTHING") ∧
    (∀ (target : List String) (ch : List (String × Value)) (count : Nat),
      target ≠ [] →
      Postgres.toOnConflictUpsert ⟨target, some ch⟩ count =
        "ON CONFLICT (" ++ Postgres.arrToString target ++ ") DO\n        UPDATE SET " ++
          Postgres.arrToString (Postgres.toAssignmentFields ch count)) ∧
    (∀ (t : String) (chg : List (String × Value)) (pk : String)
        (oc : Postgres.OnConflictArg),
      Postgres.insert t (some chg) pk (some oc) =
        Except.ok
          ⟨"INSERT INTO " ++ t ++ "(\n        " ++
            Postgres.arrToString (Postgres.toColumnFields chg) ++ "\n      ) VALUES(\n        " ++
            Postgres.arrToString (Postgres.toValuePlaceholders chg) ++ "\n      )\n        " ++
            Postgres.toOnConflictUpsert oc (Postgres.objectValues chg).length ++
            "\n        RETURNING " ++ pk,
           Postgres.objectValues chg ++ Postgres.objectValues (oc.changes.getD [])⟩) ∧
    (∀ (chg ch : List (String × Value)) (i : Nat) (q : String × Value),
      ch[i]? = some q →
      (Postgres.toAssignmentFields ch (Postgres.objectValues chg).length)[i]? =
        some (Postgres.quoteCol q.1 ++ " = $" ++
          toString ((Postgres.objectValues chg).length + i + 1)) ∧
      (Postgres.objectValues chg ++
          Postgres.objectValues ch)[(Postgres.objectValues chg).length + i]? =
        some q.2) := by
  refine ⟨?_, ?_, ?_, ?_⟩
  · intro oc count htgt
    match oc with
    | ⟨_, none⟩ => rfl
    | ⟨tgt, some ch⟩ =>
        simp only at htgt
        subst htgt
        rfl
  · intro target ch count htgt
    have hlen : target.length > 0 := by
      cases target with
      | nil => exact absurd rfl htgt
      | cons a l => simp
    simp [Postgres.toOnConflictUpsert, hlen]
  · intro t chg pk oc
    rfl
  · intro chg ch i q hq
    obtain ⟨h, hget⟩ := List.getElem?_eq_some_iff.mp hq
    have hk : i < (Postgres.objectKeys ch).length := by
      simpa [Postgres.objectKeys] using h
    constructor
    · rw [Postgres.toAssignmentFields, mapIdx_getElem? _ _ i hk]
      rw [objectKeys_getElem ch i h hk, hget]
      have harith : i + (Postgres.objectValues chg).length + 1 =
          (Postgres.objectValues chg).length + i + 1 := by omega
      rw [harith]
    · rw [List.getElem?_append_right (by omega)]
      have hsub : (Postgres.objectValues chg).length + i -
          (Postgres.objectValues chg).length = i := by omega
      rw [hsub, Postgres.objectValues, List.getElem?_map, hq]
      rfl

/-- Witness for C3 at concrete inputs: 2 insert values and a 1-key conflict
changes mapping give the do-update placeholder `$3`, pointing at position 2
of the concatenated value array; an empty target yields the do-nothing
clause. -/
theorem conflict_clause_numbering_witness :
    Postgres.toOnConflictUpsert ⟨[], some [("x", Value.vNum 1)]⟩ 5 =
      "ON CONFLICT DO NOTHING" ∧
    Postgres.toOnConflictUpsert ⟨["id"], some [("x", Value.vNum 1)]⟩ 2 =
      "ON CONFLICT (" ++ Postgres.arrToString ["id"] ++ ") DO\n        UPDATE SET " ++
        Postgres.arrToString
          (Postgres.toAssignmentFields [("x", Value.vNum 1)] 2) ∧
    (Postgres.toAssignmentFields [(("x" : String), Value.vNum 9)]
        (Postgres.objectValues [(("a" : String), Value.vNum 1), ("b", Value.vNum 2)]).length)[0]? =
      some (Postgres.quoteCol "x" ++ " = $" ++ toString (2 + 0 + 1)) ∧
    (Postgres.objectValues [(("a" : String), Value.vNum 1), ("b", Value.vNum 2)] ++
        Postgres.objectValues [(("x" : String), Value.vNum 9)])[2 + 0]? =
      some (Value.vNum 9) := by
  refine ⟨?_, ?_, ?_, ?_⟩
  · exact conflict_clause_numbering.1 ⟨[], some [("x", Value.vNum 1)]⟩ 5 rfl
  · exact conflict_clause_numbering.2.1 ["id"] [("x", Value.vNum 1)] 2 (by decide)
  · exact (conflict_clause_numbering.2.2.2
      [("a", Value.vNum 1), ("b", Value.vNum 2)] [("x", Value.vNum 9)] 0
      ("x", Value.vNum 9) rfl).1
  · exact (conflict_clause_numbering.2.2.2
      [("a", Value.vNum 1), ("b", Value.vNum 2)] [("x", Value.vNum 9)] 0
      ("x", Value.vNum 9) rfl).2

/-- C7: calling `Postgres.delete` with a missing/undefined conditions
argument fails immediately with the contract-violation error; no query
text or value array is ever produced. -/
theorem delete_requires_conditions (t : String) :
    Postgres.deleteFrom t none =
      Except.error ("Tried to update " ++ t ++
        " without a WHERE clause. Supply a conditions object") :=
  rfl

/-- C10: a conflict spec whose target is non-empty but whose `changes`
field is absent produces the do-nothing clause, not a do-update clause. -/
theorem conflict_absent_changes_do_nothing
    (target : List String) (count : Nat) (h : target ≠ []) :
    Postgres.toOnConflictUpsert ⟨target, none⟩ count = "ON CONFLICT DO NOTHING" :=
  rfl

/-- Witness for C10 at a concrete non-empty target. -/
theorem conflict_absent_changes_do_nothing_witness :
    Postgres.toOnConflictUpsert ⟨["id"], none⟩ 0 = "ON CONFLICT DO NOTHING" :=
  conflict_absent_changes_do_nothing ["id"] 0 (by decide)

namespace ModelFactory

/-- The `OnConflict` argument handed to the factory Model's `insert`:
target columns and an optional caller-supplied changes mapping. -/
structure OnConflictIn where
  target : List String
  changes : Option (List (String × Value))

/-- Where the mutated `onConflict.changes` field points after
`onConflict.changes = onConflict.changes ? changes : row`: either at the
local shallow copy `row` of the caller's row, or at its own object (the
shallow copy of the caller-supplied changes). It never points at the
caller's row object, which the code copied away from first. -/
inductive ChangesRef where
  | toLocalRow : ChangesRef
  | own : List (String × Value) → ChangesRef

/-- The state just before the factory Model's `insert` calls
`db.insert`: the caller's row object (which the code never writes),
the local shallow copy `row` it enriches and inserts, and the final
`onConflict` target/changes. -/
structure InsertState where
  callerRow : List (String × Value)
  row : List (String × Value)
  conflict : Option (List String × ChangesRef)

/-- The factory Model's `insert` (`Model<T>()` inner class), up to the
`db.insert` call: shallow-copies the caller's row, re-points
`onConflict.changes` at a shallow copy of the supplied changes or at the
local row when omitted, then (when the timestamp flag is set) defaults
`created_at`/`updated_at` on the row to one shared `now` and defaults
`updated_at` on the conflict changes to the same `now`. -/
def insert (withTimestamps : Bool) (callerRow : List (String × Value))
    (onConflict : Option OnConflictIn) (now : Nat) : InsertState :=
  let row := callerRow
  let conflict0 : Option (List String × ChangesRef) :=
    match onConflict with
    | none => none
    | some oc =>
        some (oc.target,
          match oc.changes with
          | some provided => ChangesRef.own provided
          | none => ChangesRef.toLocalRow)
  if withTimestamps then
    let nowv := Value.vDate now
    let createdAt := jsOr (objGet row "created_at") nowv
    let updatedAt := jsOr (objGet row "updated_at") nowv
    let row2 := objSet (objSet row "created_at" createdAt) "updated_at" updatedAt
    match conflict0 with
    | none => ⟨callerRow, row2, none⟩
    | some (tgt, ChangesRef.toLocalRow) =>
        let row3 := objSet row2 "updated_at" (jsOr (objGet row2 "updated_at") nowv)
        ⟨callerRow, row3, some (tgt, ChangesRef.toLocalRow)⟩
    | some (tgt, ChangesRef.own c) =>
        let c2 := objSet c "updated_at" (jsOr (objGet c "updated_at") nowv)
        ⟨callerRow, row2, some (tgt, ChangesRef.own c2)⟩
  else ⟨callerRow, row, conflict0⟩

/-- The contents of the object `onConflict.changes` points at when the
state is handed to `db.insert`. -/
def InsertState.changesContents (s : InsertState) : Option (List (String × Value)) :=
  match s.conflict with
  | none => none
  | some (_, ChangesRef.toLocalRow) => some s.row
  | some (_, ChangesRef.own c) => some c

/-- A Model instance: the stored attributes object. -/
structure Instance where
  attributes : List (String × Value)

/-- `getDefaultQuery()`: `{ [primaryKey]: this.get(primaryKey) }`. -/
def getDefaultQuery (pk : String) (inst : Instance) : List (String × Value) :=
  [(pk, objGet inst.attributes pk)]

/-- The factory Model's `retreive()`: looks the row up by the default
primary-key query through `findOne`/`selectOne` (modelled as the database
oracle `selectOne : table → conditions → row?`); a found row is wrapped in
a new instance, a miss returns the original instance. -/
def retreive (selectOne : String → List (String × Value) → Option (List (String × Value)))
    (tableName pk : String) (inst : Instance) : Instance :=
  match selectOne tableName (getDefaultQuery pk inst) with
  | some attrs => ⟨attrs⟩
  | none => inst

end ModelFactory

namespace ModelClass

/-- JS property read that can throw: reading a property of `undefined` or
`null` raises a `TypeError`; on any other value it yields the property (or
`undefined`). -/
def jsGetProp : Value → String → Except String Value
  | Value.vUndef, key => Except.error ("TypeError: Cannot read property " ++
      key ++ " of undefined")
  | Value.vNull, key => Except.error ("TypeError: Cannot read property " ++
      key ++ " of null")
  | v, key => Except.ok (valueIndex v key)

/-- The tail of the class Model's `insert` after `db.insert` resolves:
`const newRow = insertion.rows[0]; if (newRow) { row[pk] = newRow[pk] }
return row`. Takes the caller's row, the primary key and the rows the
database returned, and yields the caller's row (decorated in place when a
row came back). -/
def insertTail (row : List (String × Value)) (pk : String)
    (insertionRows : List (List (String × Value))) :
    Except String (List (String × Value)) :=
  let newRow : Value :=
    match insertionRows with
    | [] => Value.vUndef
    | r :: _ => Value.vObj r
  if truthy newRow then do
    let v ← jsGetProp newRow pk
    Except.ok (objSet row pk v)
  else
    Except.ok row

end ModelClass

theorem objGet_objSet_self (o : List (String × Value)) (k : String) (v : Value) :
    objGet (objSet o k v) k = v := by
  induction o with
  | nil => simp [objSet, objGet]
  | cons p rest ih =>
      obtain ⟨k1, v1⟩ := p
      by_cases hk : k1 = k
      · subst hk; simp [objSet, objGet]
      · simp [objSet, objGet, hk, ih]

theorem objGet_objSet_ne (o : List (String × Value)) (k k2 : String) (v : Value)
    (h : k ≠ k2) : objGet (objSet o k v) k2 = objGet o k2 := by
  induction o with
  | nil => simp [objSet, objGet, h]
  | cons p rest ih =>
      obtain ⟨k1, v1⟩ := p
      by_cases hk : k1 = k
      · subst hk; simp [objSet, objGet, h]
      · simp only [objSet, if_neg hk]
        by_cases hk2 : k1 = k2
        · subst hk2; simp [objGet]
        · simp [objGet, hk2, ih]

theorem truthy_jsOr_right (a b : Value) (hb : truthy b = true) :
    truthy (jsOr a b) = true := by
  unfold jsOr
  cases h : truthy a <;> simp [h, hb]

theorem jsOr_absorb (a b : Value) (hb : truthy b = true) :
    jsOr (jsOr a b) b = jsOr a b := by
  unfold jsOr
  cases h : truthy a <;> simp [h, hb]

theorem factory_insert_row_updated_at (callerRow : List (String × Value))
    (target : List String) (now : Nat) :
    objGet (ModelFactory.insert true callerRow (some ⟨target, none⟩) now).row
        "updated_at" =
      jsOr (objGet callerRow "updated_at") (Value.vDate now) := by
  have hrow : (ModelFactory.insert true callerRow (some ⟨target, none⟩) now).row =
      objSet
        (objSet (objSet callerRow "created_at"
            (jsOr (objGet callerRow "created_at") (Value.vDate now)))
          "updated_at" (jsOr (objGet callerRow "updated_at") (Value.vDate now)))
        "updated_at"
        (jsOr
          (objGet
            (objSet (objSet callerRow "created_at"
                (jsOr (objGet callerRow "created_at") (Value.vDate now)))
              "updated_at" (jsOr (objGet callerRow "updated_at") (Value.vDate now)))
            "updated_at")
          (Value.vDate now)) := rfl
  rw [hrow, objGet_objSet_self, objGet_objSet_self]
  exact jsOr_absorb _ _ rfl

/-- C4: for a row upserted with the conflict changes omitted, the changes
map handed to `db.insert` is exactly the timestamp-enriched row being
inserted, its `updated_at` defaults to the call-time `now` when the caller
supplied none, and it lives in the local shallow copy of the caller's row:
the caller's own row object is never written, so after the call it still
lacks the defaulted `updated_at`. -/
theorem upsert_omitted_changes (callerRow : List (String × Value))
    (target : List String) (now : Nat) :
    (ModelFactory.insert true callerRow (some ⟨target, none⟩) now).changesContents =
      some (ModelFactory.insert true callerRow (some ⟨target, none⟩) now).row ∧
    objGet (ModelFactory.insert true callerRow (some ⟨target, none⟩) now).row
        "updated_at" = jsOr (objGet callerRow "updated_at") (Value.vDate now) ∧
    (objGet callerRow "updated_at" = Value.vUndef →
      objGet (ModelFactory.insert true callerRow (some ⟨target, none⟩) now).row
          "updated_at" = Value.vDate now ∧
      (ModelFactory.insert true callerRow (some ⟨target, none⟩) now).callerRow =
        callerRow ∧
      objGet (ModelFactory.insert true callerRow (some ⟨target, none⟩) now).callerRow
          "updated_at" = Value.vUndef) := by
  refine ⟨rfl, factory_insert_row_updated_at callerRow target now, ?_⟩
  intro habsent
  refine ⟨?_, rfl, ?_⟩
  · rw [factory_insert_row_updated_at callerRow target now, habsent]
    rfl
  · exact habsent

/-- Witness for C4 at a concrete row lacking `updated_at`: the conflict
changes equal the inserted row, its `updated_at` is defaulted to `now`,
and the caller's row object still has no `updated_at`. -/
theorem upsert_omitted_changes_witness :
    (ModelFactory.insert true [("name", Value.vStr "n")]
        (some ⟨["id"], none⟩) 7).changesContents =
      some (ModelFactory.insert true [("name", Value.vStr "n")]
        (some ⟨["id"], none⟩) 7).row ∧
    objGet (ModelFactory.insert true [("name", Value.vStr "n")]
        (some ⟨["id"], none⟩) 7).row "updated_at" = Value.vDate 7 ∧
    objGet (ModelFactory.insert true [("name", Value.vStr "n")]
        (some ⟨["id"], none⟩) 7).callerRow "updated_at" = Value.vUndef := by
  refine ⟨(upsert_omitted_changes [("name", Value.vStr "n")] ["id"] 7).1, ?_, ?_⟩
  · exact ((upsert_omitted_changes [("name", Value.vStr "n")] ["id"] 7).2.2 rfl).1
  · exact ((upsert_omitted_changes [("name", Value.vStr "n")] ["id"] 7).2.2 rfl).2.2

/-- C5: inserting with the timestamp flag on a row lacking both
`created_at` and `updated_at` populates both with the same call-time
instant; a caller-supplied `created_at` or `updated_at` (a `Date`) is
preserved unchanged. -/
theorem insert_timestamp_defaulting (callerRow : List (String × Value)) (now : Nat) :
    (objGet callerRow "created_at" = Value.vUndef →
     objGet callerRow "updated_at" = Value.vUndef →
      objGet (ModelFactory.insert true callerRow none now).row "created_at" =
          Value.vDate now ∧
      objGet (ModelFactory.insert true callerRow none now).row "updated_at" =
          Value.vDate now) ∧
    (∀ d, objGet callerRow "created_at" = Value.vDate d →
      objGet (ModelFactory.insert true callerRow none now).row "created_at" =
        Value.vDate d) ∧
    (∀ d, objGet callerRow "updated_at" = Value.vDate d →
      objGet (ModelFactory.insert true callerRow none now).row "updated_at" =
        Value.vDate d) := by
  have hne : ("created_at" : String) ≠ "updated_at" := by decide
  have hrow : (ModelFactory.insert true callerRow none now).row =
      objSet (objSet callerRow "created_at"
          (jsOr (objGet callerRow "created_at") (Value.vDate now)))
        "updated_at" (jsOr (objGet callerRow "updated_at") (Value.vDate now)) := rfl
  have hca : objGet (ModelFactory.insert true callerRow none now).row "created_at" =
      jsOr (objGet callerRow "created_at") (Value.vDate now) := by
    rw [hrow, objGet_objSet_ne _ _ _ _ (fun h => hne h.symm), objGet_objSet_self]
  have hua : objGet (ModelFactory.insert true callerRow none now).row "updated_at" =
      jsOr (objGet callerRow "updated_at") (Value.vDate now) := by
    rw [hrow, objGet_objSet_self]
  refine ⟨?_, ?_, ?_⟩
  · intro h1 h2
    rw [hca, hua, h1, h2]
    exact ⟨rfl, rfl⟩
  · intro d h1
    rw [hca, h1]
    rfl
  · intro d h2
    rw [hua, h2]
    rfl

/-- Witness for C5: a row lacking both timestamps gets both set to the same
instant; a row carrying `created_at` keeps it. -/
theorem insert_timestamp_defaulting_witness :
    (objGet (ModelFactory.insert true [("name", Value.vStr "n")] none 5).row
        "created_at" = Value.vDate 5 ∧
     objGet (ModelFactory.insert true [("name", Value.vStr "n")] none 5).row
        "updated_at" = Value.vDate 5) ∧
    objGet (ModelFactory.insert true [("created_at", Value.vDate 3)] none 5).row
        "created_at" = Value.vDate 3 := by
  constructor
  · exact (insert_timestamp_defaulting [("name", Value.vStr "n")] 5).1 rfl rfl
  · exact (insert_timestamp_defaulting [("created_at", Value.vDate 3)] 5).2.1 3 rfl

/-- C6: when the insert returns at least one row, the class Model's insert
decorates the caller's row in place with the primary-key value of the
first returned row; when it returns no row it completes without raising
(the property read that would throw on `undefined` is guarded) and the
caller's row is returned unchanged, with no primary-key update. -/
theorem insert_primary_key_decoration (row : List (String × Value)) (pk : String) :
    (∀ (r : List (String × Value)) (rs : List (List (String × Value))),
      ModelClass.insertTail row pk (r :: rs) =
        Except.ok (objSet row pk (objGet r pk))) ∧
    ModelClass.insertTail row pk [] = Except.ok row := by
  exact ⟨fun r rs => rfl, rfl⟩

/-- C8: `retreive` re-fetches by the instance's primary key; a found row is
wrapped in a new instance, a miss returns the original instance with its
in-memory attributes unchanged. -/
theorem retreive_refetch_by_primary_key
    (selectOne : String → List (String × Value) → Option (List (String × Value)))
    (tableName pk : String) (inst : ModelFactory.Instance) :
    ModelFactory.getDefaultQuery pk inst = [(pk, objGet inst.attributes pk)] ∧
    (∀ attrs, selectOne tableName (ModelFactory.getDefaultQuery pk inst) = some attrs →
      ModelFactory.retreive selectOne tableName pk inst = ⟨attrs⟩) ∧
    (selectOne tableName (ModelFactory.getDefaultQuery pk inst) = none →
      ModelFactory.retreive selectOne tableName pk inst = inst ∧
      (ModelFactory.retreive selectOne tableName pk inst).attributes =
        inst.attributes) := by
  refine ⟨rfl, ?_, ?_⟩
  · intro attrs h
    simp [ModelFactory.retreive, h]
  · intro h
    simp [ModelFactory.retreive, h]

/-- Witness for C8: a hit wraps the fetched attributes in a new instance, a
miss leaves the original instance untouched. -/
theorem retreive_refetch_by_primary_key_witness :
    ModelFactory.retreive
        (fun _ _ => some [("id", Value.vNum 1), ("d", Value.vStr "v")])
        "tbl" "id" ⟨[("id", Value.vNum 1)]⟩ =
      ⟨[("id", Value.vNum 1), ("d", Value.vStr "v")]⟩ ∧
    ModelFactory.retreive (fun _ _ => none) "tbl" "id" ⟨[("id", Value.vNum 1)]⟩ =
      ⟨[("id", Value.vNum 1)]⟩ := by
  constructor
  · exact (retreive_refetch_by_primary_key
        (fun _ _ => some [("id", Value.vNum 1), ("d", Value.vStr "v")])
        "tbl" "id" ⟨[("id", Value.vNum 1)]⟩).2.1
      [("id", Value.vNum 1), ("d", Value.vStr "v")] rfl
  · exact ((retreive_refetch_by_primary_key (fun _ _ => none)
        "tbl" "id" ⟨[("id", Value.vNum 1)]⟩).2.2 rfl).1

/-- The Model's `setIn(keyPath, value)` loop, as a pure function from the
current attributes to the pair (returned the instance?, attributes after
the call): each iteration first aborts with `null` on a falsy `nested`
(first component `false`, attributes untouched), the last iteration
assigns `nested[key] = value`, any other iteration descends via
`nested = nested[key]`. -/
def setIn (value : Value) : Value → List String → Bool × Value
  | nested, [] => (true, nested)
  | nested, key :: rest =>
      if truthy nested then
        match rest with
        | [] => (true, valueSetKey nested key value)
        | _ :: _ =>
            let r := setIn value (valueIndex nested key) rest
            if r.1 then (true, valueSetKey nested key r.2) else (false, nested)
      else (false, nested)

/-- The chain of nodes `setIn`/`getIn` walk: repeated property reads. -/
def walkPath : Value → List String → Value
  | nested, [] => nested
  | nested, key :: rest => walkPath (valueIndex nested key) rest

theorem walkPath_nil (nested : Value) : walkPath nested [] = nested := rfl

theorem walkPath_cons (nested : Value) (key : String) (rest : List String) :
    walkPath nested (key :: rest) = walkPath (valueIndex nested key) rest := rfl

theorem setIn_single (value nested : Value) (key : String) :
    setIn value nested [key] =
      if truthy nested then (true, valueSetKey nested key value)
      else (false, nested) := rfl

theorem setIn_cons2 (value nested : Value) (key r : String) (rs : List String) :
    setIn value nested (key :: r :: rs) =
      if truthy nested then
        if (setIn value (valueIndex nested key) (r :: rs)).1 then
          (true, valueSetKey nested key (setIn value (valueIndex nested key) (r :: rs)).2)
        else (false, nested)
      else (false, nested) := rfl

theorem setIn_single_truthy (value nested : Value) (key : String)
    (h : truthy nested = true) :
    setIn value nested [key] = (true, valueSetKey nested key value) := by
  rw [setIn_single, if_pos h]

theorem setIn_single_falsy (value nested : Value) (key : String)
    (h : truthy nested = false) :
    setIn value nested [key] = (false, nested) := by
  rw [setIn_single, if_neg (by simp [h])]

theorem setIn_cons2_truthy (value nested : Value) (key r : String) (rs : List String)
    (h : truthy nested = true) :
    setIn value nested (key :: r :: rs) =
      if (setIn value (valueIndex nested key) (r :: rs)).1 then
        (true, valueSetKey nested key (setIn value (valueIndex nested key) (r :: rs)).2)
      else (false, nested) := by
  rw [setIn_cons2, if_pos h]

theorem setIn_cons2_falsy (value nested : Value) (key r : String) (rs : List String)
    (h : truthy nested = false) :
    setIn value nested (key :: r :: rs) = (false, nested) := by
  rw [setIn_cons2, if_neg (by simp [h])]

theorem isObj_truthy (v : Value) (h : isObj v = true) : truthy v = true := by
  cases v
  case vObj o => rfl
  all_goals simp [isObj] at h

theorem setIn_truthy_path (value : Value) :
    ∀ (path : List String) (nested : Value), path ≠ [] →
    (∀ j, j < path.length → truthy (walkPath nested (path.take j)) = true) →
    (setIn value nested path).1 = true := by
  intro path
  induction path with
  | nil => intro nested hne _; exact absurd rfl hne
  | cons key rest ih =>
      intro nested _ htr
      have h0 : truthy nested = true := by
        have h00 := htr 0 (by simp)
        simpa [walkPath] using h00
      cases rest with
      | nil => rw [setIn_single_truthy value nested key h0]
      | cons r rs =>
          have hrec : (setIn value (valueIndex nested key) (r :: rs)).1 = true := by
            refine ih (valueIndex nested key) (by simp) ?_
            intro j hj
            have h2 := htr (j + 1) (by simp at hj ⊢; omega)
            simpa [walkPath] using h2
          rw [setIn_cons2_truthy value nested key r rs h0, if_pos hrec]

theorem setIn_falsy_aborts (value : Value) :
    ∀ (path : List String) (nested : Value),
    (∃ j, j < path.length ∧ truthy (walkPath nested (path.take j)) = false) →
    setIn value nested path = (false, nested) := by
  intro path
  induction path with
  | nil =>
      intro nested h
      obtain ⟨j, hj, _⟩ := h
      simp at hj
  | cons key rest ih =>
      intro nested h
      obtain ⟨j, hj, hf⟩ := h
      cases h0 : truthy nested with
      | false =>
          cases rest with
          | nil => exact setIn_single_falsy value nested key h0
          | cons r rs => exact setIn_cons2_falsy value nested key r rs h0
      | true =>
          have hjpos : j ≠ 0 := by
            intro hj0
            subst hj0
            simp only [List.take_zero, walkPath_nil] at hf
            exact Bool.noConfusion (h0.symm.trans hf)
          obtain ⟨j2, rfl⟩ := Nat.exists_eq_succ_of_ne_zero hjpos
          have hf2 : truthy (walkPath (valueIndex nested key) (rest.take j2)) = false := by
            simpa [walkPath] using hf
          cases rest with
          | nil => simp at hj
          | cons r rs =>
              have hrec : setIn value (valueIndex nested key) (r :: rs) =
                  (false, valueIndex nested key) :=
                ih (valueIndex nested key) ⟨j2, by simp at hj ⊢; omega, hf2⟩
              rw [setIn_cons2_truthy value nested key r rs h0, hrec]
              simp

theorem setIn_writes_final (value : Value) :
    ∀ (path : List String) (nested : Value), path ≠ [] →
    (∀ j, j < path.length → isObj (walkPath nested (path.take j)) = true) →
    walkPath (setIn value nested path).2 path = value := by
  intro path
  induction path with
  | nil => intro nested hne _; exact absurd rfl hne
  | cons key rest ih =>
      intro nested _ hobj
      have h0 : isObj nested = true := by
        have h00 := hobj 0 (by simp)
        simpa [walkPath] using h00
      obtain ⟨o, rfl⟩ : ∃ o, nested = Value.vObj o := by
        cases nested
        case vObj o => exact ⟨o, rfl⟩
        all_goals simp [isObj] at h0
      have h0t : truthy (Value.vObj o) = true := rfl
      have hred : ∀ X, valueIndex (valueSetKey (Value.vObj o) key X) key = X := by
        intro X
        simp [valueSetKey, valueIndex, objGet_objSet_self]
      cases rest with
      | nil =>
          rw [setIn_single_truthy value _ key h0t]
          show walkPath (valueSetKey (Value.vObj o) key value) [key] = value
          rw [walkPath_cons, hred, walkPath_nil]
      | cons r rs =>
          have hsub : ∀ j, j < (r :: rs).length →
              isObj (walkPath (valueIndex (Value.vObj o) key) ((r :: rs).take j)) = true := by
            intro j hj
            have h2 := hobj (j + 1) (by simp at hj ⊢; omega)
            simpa [walkPath] using h2
          have htr : (setIn value (valueIndex (Value.vObj o) key) (r :: rs)).1 = true :=
            setIn_truthy_path value (r :: rs) (valueIndex (Value.vObj o) key) (by simp)
              (fun j hj => isObj_truthy _ (hsub j hj))
          have hrec : walkPath
              (setIn value (valueIndex (Value.vObj o) key) (r :: rs)).2 (r :: rs) =
              value := ih (valueIndex (Value.vObj o) key) (by simp) hsub
          rw [setIn_cons2_truthy value _ key r rs h0t, if_pos htr]
          show walkPath (valueSetKey (Value.vObj o) key
              (setIn value (valueIndex (Value.vObj o) key) (r :: rs)).2) (key :: r :: rs) =
            value
          rw [walkPath_cons, hred]
          exact hrec

/-- C9: `setIn` walks all but the last path segment; as soon as a walked
node is falsy it returns null and leaves the attributes unmutated; when
every walked node is truthy it sets the final segment and returns the
instance (reading the path back yields the value whenever the walked nodes
are objects, whether or not the final key existed before); in particular
`setIn(['a','nonsense','inner'], 22)` on `{a: {b: 'x'}}` returns null and
mutates nothing. -/
theorem setIn_aborts_or_sets (value attrs : Value) (path : List String) :
    ((∃ j, j < path.length ∧ truthy (walkPath attrs (path.take j)) = false) →
      setIn value attrs path = (false, attrs)) ∧
    (path ≠ [] → (∀ j, j < path.length → truthy (walkPath attrs (path.take j)) = true) →
      (setIn value attrs path).1 = true) ∧
    (path ≠ [] → (∀ j, j < path.length → isObj (walkPath attrs (path.take j)) = true) →
      walkPath (setIn value attrs path).2 path = value) ∧
    setIn (Value.vNum 22) (Value.vObj [("a", Value.vObj [("b", Value.vStr "x")])])
        ["a", "nonsense", "inner"] =
      (false, Value.vObj [("a", Value.vObj [("b", Value.vStr "x")])]) := by
  refine ⟨?_, ?_, ?_, rfl⟩
  · exact setIn_falsy_aborts value path attrs
  · intro hne htr
    exact setIn_truthy_path value path attrs hne htr
  · intro hne hobj
    exact setIn_writes_final value path attrs hne hobj

/-- Witness for C9: `setIn(['f','g'], 'V')` on `{f: {g: {}}}` returns the
instance and afterwards `f.g` reads back as `'V'`. -/
theorem setIn_aborts_or_sets_witness :
    (setIn (Value.vStr "V")
        (Value.vObj [("f", Value.vObj [("g", Value.vObj [])])]) ["f", "g"]).1 = true ∧
    walkPath
        (setIn (Value.vStr "V")
          (Value.vObj [("f", Value.vObj [("g", Value.vObj [])])]) ["f", "g"]).2
        ["f", "g"] = Value.vStr "V" := by
  constructor
  · refine (setIn_aborts_or_sets (Value.vStr "V")
        (Value.vObj [("f", Value.vObj [("g", Value.vObj [])])]) ["f", "g"]).2.1
      (by simp) ?_
    intro j hj
    simp at hj
    interval_cases j <;> rfl
  · refine (setIn_aborts_or_sets (Value.vStr "V")
        (Value.vObj [("f", Value.vObj [("g", Value.vObj [])])]) ["f", "g"]).2.2.1
      (by simp) ?_
    intro j hj
    simp at hj
    interval_cases j <;> rfl
